import Mathlib

/-!
Shallow embedding of the Ryattl task-list manager (Rust sources
`src/main.rs` and `src/parsing.rs`) and proofs about its core:
the `Priority` order, the parsing functions, the serialization format,
and the ordered task store (binary-search insertion, ordinal addressing,
modify/remove/list).

Conventions of the embedding:
* Rust `usize` is modelled as `Nat`; where overflow matters the bound
  `USIZE_MAX = 2^64 - 1` (64-bit target) is made explicit.
* Rust `&str` values handled by the parsing functions are modelled as
  `List Char`.
* fallible code (`Result<..., String>`) is modelled with `Except String`;
  the `unsafe` unchecked index accesses of `main.rs` are modelled with
  total `Option`-returning indexing, whose `none` branch corresponds to
  the out-of-bounds case.
* terminal styling from the `colored` crate (ANSI escapes, enabled only
  on a tty) is omitted from the embedded message strings; the message
  text itself is kept verbatim.
* `jiff::Zoned` timestamps are opaque to every algorithm here except via
  their `Display` output, so `created_on` is modelled as the list of
  characters that `Display` would produce.
-/

/-- decidable equality for `Except`, so that concrete runs of the
fallible operations can be checked by `decide`. -/
instance exceptDecidableEq {ε α : Type} [DecidableEq ε] [DecidableEq α] :
    DecidableEq (Except ε α)
  | .error e, .error f =>
    if h : e = f then .isTrue (by rw [h]) else .isFalse (by simp [h])
  | .error _, .ok _ => .isFalse (by simp)
  | .ok _, .error _ => .isFalse (by simp)
  | .ok a, .ok b =>
    if h : a = b then .isTrue (by rw [h]) else .isFalse (by simp [h])

/-- Priority of a task, from `enum Priority { Max, Min, Value(usize) }`
in `main.rs`. -/
inductive Priority where
  | Max : Priority
  | Min : Priority
  | Value : Nat → Priority
deriving DecidableEq, Repr

/-- Comparison from `impl Ord for Priority` in `main.rs`: the match arms
are, in order, `(Max, Max) | (Min, Min) => Equal`,
`(Max, _) | (_, Min) => Greater`, `(_, Max) | (Min, _) => Less`,
`(Value x, Value y) => x.cmp(y)`. -/
def Priority.cmp : Priority → Priority → Ordering
  | .Max, .Max => .eq
  | .Min, .Min => .eq
  | .Max, _ => .gt
  | _, .Min => .gt
  | _, .Max => .lt
  | .Min, _ => .lt
  | .Value x, .Value y => compare x y

/-- Boolean `a <= b` on priorities, the order in which Rust's
`sort_by_key(|task| task.priority)` and the insertion search leave the
store arranged. -/
def Priority.le (a b : Priority) : Bool := a.cmp b ≠ Ordering.gt

theorem Priority.cmp_self (a : Priority) : a.cmp a = .eq := by
  cases a <;> simp [Priority.cmp, Nat.compare_eq_eq]

theorem Priority.cmp_eq_eq_iff {a b : Priority} : a.cmp b = .eq ↔ a = b := by
  cases a <;> cases b <;> simp [Priority.cmp, Nat.compare_eq_eq]

theorem Priority.cmp_swap (a b : Priority) : a.cmp b = (b.cmp a).swap := by
  cases a <;> cases b <;> simp [Priority.cmp, Ordering.swap]
  case Value.Value x y =>
    rcases Nat.lt_trichotomy x y with h | h | h
    · rw [(Nat.compare_eq_lt).mpr h, (Nat.compare_eq_gt).mpr h]
    · rw [(Nat.compare_eq_eq).mpr h, (Nat.compare_eq_eq).mpr h.symm]
    · rw [(Nat.compare_eq_gt).mpr h, (Nat.compare_eq_lt).mpr h]

theorem Priority.cmp_lt_trans {a b c : Priority} (hab : a.cmp b = .lt)
    (hbc : b.cmp c = .lt) : a.cmp c = .lt := by
  cases a <;> cases b <;> cases c <;>
    simp_all [Priority.cmp, Nat.compare_eq_lt]
  omega

theorem Priority.cmp_total (a b : Priority) :
    a.cmp b = .lt ∨ a.cmp b = .eq ∨ b.cmp a = .lt := by
  cases a <;> cases b <;> simp [Priority.cmp, Nat.compare_eq_lt,
    Nat.compare_eq_eq]
  omega

/-- the combination `a <= b` and `b < c` gives `a < c`. -/
theorem Priority.cmp_le_lt_trans {a b c : Priority} (hab : a.cmp b ≠ .gt)
    (hbc : b.cmp c = .lt) : a.cmp c = .lt := by
  rcases Priority.cmp_total a b with h | h | h
  · exact Priority.cmp_lt_trans h hbc
  · rwa [Priority.cmp_eq_eq_iff.mp h]
  · exact absurd (by rw [Priority.cmp_swap a b, h]; rfl) hab

/-- the combination `a <= b` and `p <= a` gives `p <= b`. -/
theorem Priority.cmp_le_le_trans {a b p : Priority} (hab : a.cmp b ≠ .gt)
    (hpa : a.cmp p ≠ .lt) : b.cmp p ≠ .lt := by
  intro hbp
  rcases Priority.cmp_total a b with h | h | h
  · exact hpa (Priority.cmp_lt_trans h hbp)
  · exact hpa (by rwa [Priority.cmp_eq_eq_iff.mp h])
  · exact hab (by rw [Priority.cmp_swap a b, h]; rfl)

theorem Priority.le_trans {a b c : Priority} (hab : a.le b = true)
    (hbc : b.le c = true) : a.le c = true := by
  simp only [Priority.le, ne_eq, decide_eq_true_eq] at *
  intro hac
  have hca : c.cmp a = .lt := by
    rw [Priority.cmp_swap c a, hac]; rfl
  have hba : b.cmp a = .lt := Priority.cmp_le_lt_trans hbc hca
  exact hab (by rw [Priority.cmp_swap a b, hba]; rfl)

theorem Priority.le_total (a b : Priority) :
    (a.le b || b.le a) = true := by
  simp only [Priority.le, ne_eq, Bool.or_eq_true, decide_eq_true_eq]
  rcases Priority.cmp_total a b with h | h | h
  · exact Or.inl (by simp [h])
  · exact Or.inl (by simp [h])
  · exact Or.inr (by simp [h])

/-- C5: `Priority::cmp` realizes the specified total order — `Max` above
every `Value(n)` and above `Min`, `Min` below every `Value(n)` and below
`Max`, `Max = Max` and `Min = Min` compare equal, two `Value`s compare as
their numbers, `Max` is not equal to `Min` — and it is a lawful total
order: reflexive, antisymmetric, transitive and total. -/
theorem priority_cmp_total_order :
    (∀ n, Priority.cmp .Max (.Value n) = .gt) ∧
    Priority.cmp .Max .Min = .gt ∧
    (∀ n, Priority.cmp .Min (.Value n) = .lt) ∧
    Priority.cmp .Min .Max = .lt ∧
    Priority.cmp .Max .Max = .eq ∧
    Priority.cmp .Min .Min = .eq ∧
    (∀ x y, Priority.cmp (.Value x) (.Value y) = compare x y) ∧
    Priority.cmp .Max .Min ≠ .eq ∧
    (∀ a, Priority.cmp a a = .eq) ∧
    (∀ a b, Priority.cmp a b = .eq → a = b) ∧
    (∀ a b c, Priority.cmp a b = .lt → Priority.cmp b c = .lt →
      Priority.cmp a c = .lt) ∧
    (∀ a b, Priority.cmp a b = .lt ∨ Priority.cmp a b = .eq ∨
      Priority.cmp b a = .lt) := by
  refine ⟨fun n => rfl, rfl, fun n => rfl, rfl, rfl, rfl, fun x y => rfl,
    by decide, Priority.cmp_self, ?_, ?_, Priority.cmp_total⟩
  · exact fun a b h => Priority.cmp_eq_eq_iff.mp h
  · exact fun a b c hab hbc => Priority.cmp_lt_trans hab hbc

/-- witness for `priority_cmp_total_order`: its antisymmetry and
transitivity components applied at concrete priorities. -/
theorem priority_cmp_total_order_witness :
    Priority.Value 1 = Priority.Value 1 ∧
    Priority.cmp (.Value 0) (.Value 2) = .lt :=
  ⟨priority_cmp_total_order.2.2.2.2.2.2.2.2.2.1 (.Value 1) (.Value 1)
      (by decide),
   priority_cmp_total_order.2.2.2.2.2.2.2.2.2.2.1 (.Value 0) (.Value 1)
      (.Value 2) (by decide) (by decide)⟩

/-- record separator from `parsing.rs`: `pub const RECORD_SEPERATOR: char
= '\n'` (spelling as in the source file). -/
def RECORD_SEPERATOR : Char := '\n'

/-- unit separator from `parsing.rs`: `pub const UNIT_SEPERATOR: char =
'\x1F'`. -/
def UNIT_SEPERATOR : Char := Char.ofNat 31

/-- relevant cases of Rust's `std::num::IntErrorKind`. -/
inductive IntErrorKind where
  | Empty : IntErrorKind
  | InvalidDigit : IntErrorKind
  | PosOverflow : IntErrorKind
  | Zero : IntErrorKind
deriving DecidableEq, Repr

/-- largest `usize` value on the 64-bit targets the program is built
for. -/
def USIZE_MAX : Nat := 2 ^ 64 - 1

/-- value of an ASCII decimal digit, as used by Rust's integer
`from_str` (radix 10). -/
def digitVal (c : Char) : Option Nat :=
  if 48 ≤ c.toNat ∧ c.toNat ≤ 57 then some (c.toNat - 48) else none

/-- digit-accumulation loop of Rust's `usize::from_str`: a non-digit
character is `InvalidDigit`, exceeding `USIZE_MAX` is `PosOverflow`. -/
def parseDigits (acc : Nat) : List Char → Except IntErrorKind Nat
  | [] => .ok acc
  | c :: rest =>
    match digitVal c with
    | none => .error .InvalidDigit
    | some d =>
      if USIZE_MAX < acc * 10 + d then .error .PosOverflow
      else parseDigits (acc * 10 + d) rest

/-- Rust's `usize::from_str`: empty input is `Empty`, an optional
leading `+` sign is allowed (a lone `+` is `InvalidDigit`; `-` is not a
digit for an unsigned type), then the digit loop runs. -/
def parseUsize (s : List Char) : Except IntErrorKind Nat :=
  match s with
  | [] => .error .Empty
  | c :: rest =>
    if c = '+' then
      if rest.isEmpty then .error .InvalidDigit else parseDigits 0 rest
    else parseDigits 0 (c :: rest)

/-- Rust's `NonZeroUsize::from_str`: parse the underlying `usize`, then
reject the value `0` with the `Zero` error kind. -/
def parseNonZeroUsize (s : List Char) : Except IntErrorKind Nat :=
  match parseUsize s with
  | .error e => .error e
  | .ok 0 => .error .Zero
  | .ok n => .ok n

/-- Rust's `str::trim`, removing whitespace from both ends (Lean's
`Char.isWhitespace` covers the ASCII whitespace that can reach the
parser; Rust trims full Unicode whitespace). -/
def trim (s : List Char) : List Char :=
  ((s.dropWhile Char.isWhitespace).reverse.dropWhile Char.isWhitespace).reverse

/-- `parse_priority` from `parsing.rs`: the trimmed input is matched
against the sentinel tokens `"max"` and `"min"`; otherwise the ORIGINAL
(untrimmed) `string` is parsed as a `usize`, `PosOverflow` mapping to
the distinct too-big message and every other parse error to the generic
message. -/
def parse_priority (string : List Char) : Except String Priority :=
  if trim string = "max".toList then .ok .Max
  else if trim string = "min".toList then .ok .Min
  else
    match parseUsize string with
    | .ok n => .ok (.Value n)
    | .error .PosOverflow =>
      .error "the number is too big, you might want to use 'max' instead"
    | .error _ => .error "expected 'min', 'max' or a whole number"

/-- `parse_task_id` from `parsing.rs`:
`string.trim().parse::<NonZeroUsize>()`, `PosOverflow` mapping to the
too-big message and every other error to the generic message. -/
def parse_task_id (string : List Char) : Except String Nat :=
  match parseNonZeroUsize (trim string) with
  | .ok n => .ok n
  | .error .PosOverflow => .error "the number is too big to be a valid ID"
  | .error _ => .error "expected a non-zero whole number"

/-- Task record as defined in `main.rs` (`priority`, `message`,
`created_on`); the timestamp is kept as its `Display` text. The name is
qualified because Lean's core library already owns `Task`. -/
structure Ryattl.Task where
  priority : Priority
  message : List Char
  created_on : List Char
deriving DecidableEq, Repr

instance : Inhabited Ryattl.Task := ⟨⟨.Min, [], []⟩⟩

/-- Task record as built by `parse_task` in the `parsing.rs` snapshot,
which has no `created_on` field. -/
structure ParsedTask where
  priority : Priority
  message : List Char
deriving DecidableEq, Repr

/-- splitting at the first occurrence of a separator: `none` when the
separator does not occur. -/
def splitFirst (sep : Char) : List Char → Option (List Char × List Char)
  | [] => none
  | c :: rest =>
    if c = sep then some ([], rest)
    else
      match splitFirst sep rest with
      | none => none
      | some (a, b) => some (c :: a, b)

/-- Rust's `splitn(2, sep)` on a string: one piece when the separator is
absent, otherwise the part before the first separator and the rest. -/
def splitn2 (sep : Char) (s : List Char) : List (List Char) :=
  match splitFirst sep s with
  | none => [s]
  | some (a, b) => [a, b]

/-- `parse_task` from `parsing.rs`: split into at most two items on the
unit separator, parse the first as a priority (failure is the corrupted
message), take the second verbatim as the message (absence is the
corrupted message). -/
def parse_task (string : List Char) : Except String ParsedTask :=
  let items := splitn2 UNIT_SEPERATOR string
  match items.head? >>= fun s => (parse_priority s).toOption with
  | none => .error "the task list file is corrupted"
  | some priority =>
    match items[1]? with
    | none => .error "the task list file is corrupted"
    | some message => .ok ⟨priority, message⟩

/-- decimal numeral of a `Nat`, most significant digit first: the text
Rust's `Display` produces for a `usize`. -/
def natDecimal (n : Nat) : List Char :=
  if n < 10 then [Char.ofNat (48 + n)]
  else natDecimal (n / 10) ++ [Char.ofNat (48 + n % 10)]
decreasing_by simp_wf; omega

/-- `impl fmt::Display for Priority` in `main.rs`: `"max"`, `"min"`, or
the decimal numeral of the value. -/
def Priority.format : Priority → List Char
  | .Max => "max".toList
  | .Min => "min".toList
  | .Value n => natDecimal n

/-- buffer built by `save_tasklist` in `main.rs`: for each task, in
order, `{priority}{US}{message}{US}{created_on}{RS}` (the file-system
write itself is outside the embedding). -/
def save_tasklist (tasklist : List Ryattl.Task) : List Char :=
  tasklist.foldl
    (fun buffer task =>
      buffer ++ task.priority.format ++ [UNIT_SEPERATOR] ++ task.message
        ++ [UNIT_SEPERATOR] ++ task.created_on ++ [RECORD_SEPERATOR])
    []

/-- helper of `lines`: Rust's `str::lines` strips one trailing `'\r'`
from each line. -/
def stripTrailingCr (l : List Char) : List Char :=
  if l.getLast? = some '\r' then l.dropLast else l

/-- Rust's `str::lines`: split on `'\n'`, drop a final empty piece,
strip a trailing `'\r'` from each line. -/
def lines (s : List Char) : List (List Char) :=
  let parts := s.splitOn '\n'
  (if parts.getLast? = some [] then parts.dropLast else parts).map
    stripTrailingCr

/-- decoding stage of `get_tasklist` in `main.rs`:
`contents.lines().map(parse_task).collect::<Result<Vec<_>, _>>()`. -/
def decode_records (contents : List Char) : Except String (List ParsedTask) :=
  (lines contents).mapM parse_task

/-- `get_tasklist` from `main.rs` with the file read abstracted to its
contents: decode every record, then defensively stable-sort by priority
(`sort_by_key(|task| task.priority)`). -/
def get_tasklist (contents : List Char) : Except String (List ParsedTask) :=
  match decode_records contents with
  | .error e => .error e
  | .ok tasklist =>
    .ok (tasklist.mergeSort (fun a b => Priority.le a.priority b.priority))

/-- `build_invalid_task_id_error` from `main.rs` (ANSI styling from the
`colored` crate omitted; the text is verbatim). -/
def build_invalid_task_id_error (task_id : Nat) (tasklist_len : Nat) : String :=
  "invalid value '" ++ toString task_id ++
    "' for '<TASK_ID>': expected a value less than or equal to " ++
    toString tasklist_len ++ "\n\nFor more information, try '--help'."

/-- store invariant: the sequence is non-decreasing by priority from
first to last element (`f` projects the priority out of an element). -/
def sortedByPriority {α : Type} (f : α → Priority) (l : List α) : Prop :=
  l.Pairwise (fun a b => Priority.le (f a) (f b) = true)

/-- binary-search loop of the `Add` command in `main.rs`: `getp i`
stands for `tasklist[i].priority`; the loop narrows the half-open range
`[begin, end)` by midpoint comparison (`Less` moves `begin` past the
midpoint, `Equal | Greater` moves `end` to it) and, once the range is
empty, the final midpoint `(begin + end) / 2` is the insertion point. -/
def lowerBoundLoop (getp : Nat → Priority) (p : Priority) (b e : Nat) : Nat :=
  if b < e then
    match (getp ((b + e) / 2)).cmp p with
    | .lt => lowerBoundLoop getp p ((b + e) / 2 + 1) e
    | _ => lowerBoundLoop getp p b ((b + e) / 2)
  else (b + e) / 2
termination_by e - b
decreasing_by all_goals simp_wf; omega

/-- insertion index computed by the `Add` command for a task of priority
`p`: the loop above run over `[0, tasklist.len())`.  The element reads
are modelled with `getD`; the loop only ever reads in-bounds indices. -/
def add_insert_index (tasklist : List Ryattl.Task) (p : Priority) : Nat :=
  lowerBoundLoop (fun i => (tasklist.getD i default).priority) p 0
    tasklist.length

/-- message sanitization of the `Add` command: every record or unit
separator character in the message becomes a space. -/
def sanitize_message (message : List Char) : List Char :=
  message.map fun c =>
    if c = RECORD_SEPERATOR ∨ c = UNIT_SEPERATOR then ' ' else c

/-- effect of the `Add` command on the store: build the task (sanitized
message, creation timestamp `now`), then insert it at the binary-search
position via `tasklist.insert(pivot, task)`. -/
def add_task (tasklist : List Ryattl.Task) (p : Priority)
    (message : List Char) (now : List Char) : List Ryattl.Task :=
  tasklist.insertIdx (add_insert_index tasklist p)
    ⟨p, sanitize_message message, now⟩

/-- lookup shared by the `Info` and `Modify` commands in `main.rs`: the
guard `task_id > tasklist_len` raises the invalid-ID error, then the
element at `tasklist_len - task_id` is read (`get_unchecked` in the
source; here total indexing whose `none` branch is the out-of-bounds
case). -/
def lookup_task (tasklist : List Ryattl.Task) (task_id : Nat) :
    Except String Ryattl.Task :=
  let tasklist_len := tasklist.length
  if task_id > tasklist_len then
    .error (build_invalid_task_id_error task_id tasklist_len)
  else
    match tasklist[tasklist_len - task_id]? with
    | some task => .ok task
    | none => .error "index out of bounds"

/-- `sort_by_key(|task| task.priority)` from `main.rs` (Rust's stable
sort), modelled with the stable `List.mergeSort`. -/
def sort_tasklist (tasklist : List Ryattl.Task) : List Ryattl.Task :=
  tasklist.mergeSort (fun a b => Priority.le a.priority b.priority)

/-- the `Modify` command: after the same guard and indexed access as
`Info`, the located task's priority is replaced in place when a `-p`
flag is given, and in that case (`!is_sorted`) the whole store is
re-sorted with the stable sort. -/
def modify_task (tasklist : List Ryattl.Task) (priority : Option Priority)
    (task_id : Nat) : Except String (List Ryattl.Task) :=
  let tasklist_len := tasklist.length
  if task_id > tasklist_len then
    .error (build_invalid_task_id_error task_id tasklist_len)
  else
    match tasklist[tasklist_len - task_id]? with
    | none => .error "index out of bounds"
    | some task =>
      let is_sorted := priority.isNone
      let tasklist' :=
        match priority with
        | some p => tasklist.set (tasklist_len - task_id)
            { task with priority := p }
        | none => tasklist
      .ok (if is_sorted then tasklist' else sort_tasklist tasklist')

/-- the `Remove` command: the same guard, then
`tasklist.remove(tasklist_len - task_id)`, modelled with `eraseIdx`
(Rust's `Vec::remove` would panic at an out-of-range index; every
`task_id` reaching this point comes from `parse_task_id`, so it is at
least 1 and in range once the guard has passed). -/
def remove_task (tasklist : List Ryattl.Task) (task_id : Nat) :
    Except String (List Ryattl.Task) :=
  let tasklist_len := tasklist.length
  if task_id > tasklist_len then
    .error (build_invalid_task_id_error task_id tasklist_len)
  else .ok (tasklist.eraseIdx (tasklist_len - task_id))

/-- (ordinal, task) pairs printed by the `List` command:
`tasklist.iter().rev().enumerate()`, each task shown with ordinal
`index + 1`. -/
def list_entries (tasklist : List Ryattl.Task) : List (Nat × Ryattl.Task) :=
  tasklist.reverse.enum.map fun p => (p.1 + 1, p.2)

/-- outcome of the `List` command: the message printed when the store is
empty, the printed enumeration, the store as the command leaves it, and
whether the run reaches `save_tasklist`. -/
structure ListRun where
  empty_message : Option String
  entries : List (Nat × Ryattl.Task)
  tasklist : List Ryattl.Task
  saved : Bool
deriving Repr

/-- the `List` command in `main.rs`: an empty store prints the distinct
message and returns early; otherwise the enumeration is printed and the
command returns early as well — both paths return `Ok(())` before the
`save_tasklist` call at the end of `internal_main`, and neither touches
the store. -/
def run_list (tasklist : List Ryattl.Task) : ListRun :=
  if tasklist.isEmpty then
    ⟨some "The task list is empty", [], tasklist, false⟩
  else ⟨none, list_entries tasklist, tasklist, false⟩

theorem Priority.le_eq_true_iff {a b : Priority} :
    Priority.le a b = true ↔ a.cmp b ≠ .gt := by
  simp [Priority.le]

/-- sortedness gives monotonicity of the indexed priority reads the
binary search performs. -/
theorem getD_priority_mono {l : List Ryattl.Task}
    (hs : sortedByPriority Ryattl.Task.priority l) :
    ∀ i j, i ≤ j → j < l.length →
      ((l.getD i default).priority).cmp ((l.getD j default).priority) ≠
        .gt := by
  intro i j hij hj
  rcases Nat.eq_or_lt_of_le hij with rfl | hlt
  · rw [Priority.cmp_self]; simp
  · have hi : i < l.length := Nat.lt_trans hlt hj
    have hgi : l.getD i default = l.get ⟨i, hi⟩ := by
      rw [List.getD_eq_getElem?_getD, List.getElem?_eq_getElem hi]
      rfl
    have hgj : l.getD j default = l.get ⟨j, hj⟩ := by
      rw [List.getD_eq_getElem?_getD, List.getElem?_eq_getElem hj]
      rfl
    rw [hgi, hgj]
    have := (List.pairwise_iff_get.mp hs) ⟨i, hi⟩ ⟨j, hj⟩ hlt
    exact Priority.le_eq_true_iff.mp this

/-- invariant-preservation proof for the binary-search loop: starting
from a window `[b, e)` whose outside is already settled (everything
below `b` has priority `< p`, everything from `e` on has priority
`>= p`), the loop lands on an index with the same two properties. -/
theorem lowerBoundLoop_spec (getp : Nat → Priority) (p : Priority)
    (len : Nat)
    (mono : ∀ i j, i ≤ j → j < len → (getp i).cmp (getp j) ≠ .gt) :
    ∀ fuel b e, e - b ≤ fuel → b ≤ e → e ≤ len →
      (∀ j, j < b → (getp j).cmp p = .lt) →
      (∀ j, e ≤ j → j < len → (getp j).cmp p ≠ .lt) →
      b ≤ lowerBoundLoop getp p b e ∧ lowerBoundLoop getp p b e ≤ e ∧
      (∀ j, j < lowerBoundLoop getp p b e → (getp j).cmp p = .lt) ∧
      (∀ j, lowerBoundLoop getp p b e ≤ j → j < len →
        (getp j).cmp p ≠ .lt) := by
  intro fuel
  induction fuel with
  | zero =>
    intro b e hfuel hbe hlen hlo hhi
    have heb : e = b := by omega
    subst heb
    rw [lowerBoundLoop]
    simp only [Nat.lt_irrefl, if_false]
    have hmid : (e + e) / 2 = e := by omega
    rw [hmid]
    exact ⟨Nat.le_refl e, Nat.le_refl e, hlo, hhi⟩
  | succ fuel ih =>
    intro b e hfuel hbe hlen hlo hhi
    by_cases h : b < e
    · have hpivlt : (b + e) / 2 < e := by omega
      have hpivge : b ≤ (b + e) / 2 := by omega
      cases hc : (getp ((b + e) / 2)).cmp p with
      | lt =>
        have hr := ih ((b + e) / 2 + 1) e (by omega) (by omega) hlen
          (fun j hj => by
            rcases Nat.lt_or_ge j b with hjb | hjb
            · exact hlo j hjb
            · exact Priority.cmp_le_lt_trans
                (mono j ((b + e) / 2) (by omega) (by omega)) hc)
          hhi
        rw [lowerBoundLoop]
        simp only [h, if_true, hc]
        exact ⟨by omega, by omega, hr.2.2.1, hr.2.2.2⟩
      | eq =>
        have hr := ih b ((b + e) / 2) (by omega) (by omega) (by omega) hlo
          (fun j hj hjlen =>
            Priority.cmp_le_le_trans (mono ((b + e) / 2) j hj hjlen)
              (by rw [hc]; simp))
        rw [lowerBoundLoop]
        simp only [h, if_true, hc]
        exact ⟨hr.1, by omega, hr.2.2.1, hr.2.2.2⟩
      | gt =>
        have hr := ih b ((b + e) / 2) (by omega) (by omega) (by omega) hlo
          (fun j hj hjlen =>
            Priority.cmp_le_le_trans (mono ((b + e) / 2) j hj hjlen)
              (by rw [hc]; simp))
        rw [lowerBoundLoop]
        simp only [h, if_true, hc]
        exact ⟨hr.1, by omega, hr.2.2.1, hr.2.2.2⟩
    · have heb : e = b := by omega
      subst heb
      rw [lowerBoundLoop]
      simp only [Nat.lt_irrefl, if_false]
      have hmid : (e + e) / 2 = e := by omega
      rw [hmid]
      exact ⟨Nat.le_refl e, Nat.le_refl e, hlo, hhi⟩

/-- C2: on a store that is non-decreasing by priority, the binary search
of the `Add` command (half-open window `[begin, end)` narrowed by
midpoint comparison, insertion at the final midpoint) selects exactly
the leftmost index whose element's priority is greater than or equal to
the new task's priority: every element strictly before the returned
index compares `Less` than the new priority, and no element from the
returned index on does.  No case distinction on the `Max` sentinel is
involved. -/
theorem add_insert_index_is_lower_bound (l : List Ryattl.Task)
    (p : Priority) (hs : sortedByPriority Ryattl.Task.priority l) :
    add_insert_index l p ≤ l.length ∧
    (∀ j, j < add_insert_index l p →
      ((l.getD j default).priority).cmp p = .lt) ∧
    (∀ j, add_insert_index l p ≤ j → j < l.length →
      ((l.getD j default).priority).cmp p ≠ .lt) := by
  have hr := lowerBoundLoop_spec
    (fun i => (l.getD i default).priority) p l.length
    (getD_priority_mono hs) (l.length) 0 l.length (by omega) (by omega)
    (Nat.le_refl _) (fun j hj => absurd hj (Nat.not_lt_zero j))
    (fun j hj hjlen => absurd (Nat.lt_of_le_of_lt hj hjlen)
      (Nat.lt_irrefl _))
  exact ⟨hr.2.1, hr.2.2.1, hr.2.2.2⟩

/-- witness for `add_insert_index_is_lower_bound`: a concrete sorted
store with priorities 1, 3, 3 and new priority 3, where the search must
choose index 1 (the left edge of the equal-priority run). -/
theorem add_insert_index_is_lower_bound_witness :
    add_insert_index
        [⟨.Value 1, [], []⟩, ⟨.Value 3, [], []⟩, ⟨.Value 3, [], []⟩]
        (.Value 3) ≤
      ([⟨.Value 1, [], []⟩, ⟨.Value 3, [], []⟩,
        (⟨.Value 3, [], []⟩ : Ryattl.Task)] : List Ryattl.Task).length ∧
    (∀ j, j < add_insert_index
        [⟨.Value 1, [], []⟩, ⟨.Value 3, [], []⟩, ⟨.Value 3, [], []⟩]
        (.Value 3) →
      ((([⟨.Value 1, [], []⟩, ⟨.Value 3, [], []⟩,
        (⟨.Value 3, [], []⟩ : Ryattl.Task)] : List Ryattl.Task).getD j
          default).priority).cmp (.Value 3) = .lt) ∧
    (∀ j, add_insert_index
        [⟨.Value 1, [], []⟩, ⟨.Value 3, [], []⟩, ⟨.Value 3, [], []⟩]
        (.Value 3) ≤ j →
      j < ([⟨.Value 1, [], []⟩, ⟨.Value 3, [], []⟩,
        (⟨.Value 3, [], []⟩ : Ryattl.Task)] : List Ryattl.Task).length →
      ((([⟨.Value 1, [], []⟩, ⟨.Value 3, [], []⟩,
        (⟨.Value 3, [], []⟩ : Ryattl.Task)] : List Ryattl.Task).getD j
          default).priority).cmp (.Value 3) ≠ .lt) :=
  add_insert_index_is_lower_bound
    [⟨.Value 1, [], []⟩, ⟨.Value 3, [], []⟩, ⟨.Value 3, [], []⟩]
    (.Value 3)
    (by simp only [sortedByPriority]; decide)

theorem Priority.le_of_cmp_lt {a b : Priority} (h : a.cmp b = .lt) :
    Priority.le a b = true := by
  simp [Priority.le, h]

theorem Priority.le_of_cmp_not_lt {a b : Priority} (h : a.cmp b ≠ .lt) :
    Priority.le b a = true := by
  rw [Priority.le_eq_true_iff, Priority.cmp_swap b a]
  cases hab : a.cmp b <;> simp_all [Ordering.swap]

theorem getD_eq_getElem_of_lt {α : Type} [Inhabited α] {l : List α}
    {i : Nat} (h : i < l.length) : l.getD i default = l[i] := by
  rw [List.getD_eq_getElem?_getD, List.getElem?_eq_getElem h]
  rfl

/-- the defensive/stable sort used by `get_tasklist` and `Modify` always
produces a store that is non-decreasing by priority. -/
theorem mergeSort_sortedByPriority {α : Type} (f : α → Priority)
    (l : List α) :
    sortedByPriority f
      (l.mergeSort (fun a b => Priority.le (f a) (f b))) :=
  @List.sorted_mergeSort _ (fun a b => Priority.le (f a) (f b))
    (fun _ _ _ hab hbc => Priority.le_trans hab hbc)
    (fun a b => Priority.le_total (f a) (f b)) l

/-- `insertIdx` at an in-range position is take-prefix, element, drop-
suffix. -/
theorem insertIdx_eq_take_cons_drop {α : Type} (a : α) :
    ∀ (n : Nat) (l : List α), n ≤ l.length →
      l.insertIdx n a = l.take n ++ a :: l.drop n := by
  intro n
  induction n with
  | zero => intro l _; rfl
  | succ n ihn =>
    intro l h
    cases l with
    | nil => exact absurd h (by simp)
    | cons x xs =>
      rw [List.insertIdx_succ_cons, ihn xs (by simpa using h)]
      rfl

/-- insertion at the binary-search position keeps the store sorted. -/
theorem add_task_sorted (l : List Ryattl.Task) (p : Priority)
    (message now : List Char)
    (hs : sortedByPriority Ryattl.Task.priority l) :
    sortedByPriority Ryattl.Task.priority (add_task l p message now) := by
  have hspec := add_insert_index_is_lower_bound l p hs
  rw [add_task, insertIdx_eq_take_cons_drop _ _ _ hspec.1]
  rw [sortedByPriority, List.pairwise_append]
  refine ⟨List.Pairwise.sublist (List.take_sublist _ _) hs, ?_, ?_⟩
  · rw [List.pairwise_cons]
    refine ⟨?_, List.Pairwise.sublist (List.drop_sublist _ _) hs⟩
    intro b hb
    rcases List.mem_iff_getElem.mp hb with ⟨k, hk, rfl⟩
    rw [List.getElem_drop]
    have hklen : add_insert_index l p + k < l.length := by
      have := (List.length_drop (add_insert_index l p) l) ▸ hk
      omega
    have := hspec.2.2 (add_insert_index l p + k) (by omega) hklen
    rw [getD_eq_getElem_of_lt hklen] at this
    exact Priority.le_of_cmp_not_lt this
  · intro a ha b hb
    rcases List.mem_iff_getElem.mp ha with ⟨j, hj, rfl⟩
    have hjlt : j < add_insert_index l p := by
      have := (List.length_take (add_insert_index l p) l) ▸ hj
      omega
    have hjlen : j < l.length := by omega
    rw [List.getElem_take]
    rcases List.mem_cons.mp hb with rfl | hb
    · have := hspec.2.1 j hjlt
      rw [getD_eq_getElem_of_lt hjlen] at this
      exact Priority.le_of_cmp_lt this
    · rcases List.mem_iff_getElem.mp hb with ⟨k, hk, rfl⟩
      rw [List.getElem_drop]
      have hklen : add_insert_index l p + k < l.length := by
        have := (List.length_drop (add_insert_index l p) l) ▸ hk
        omega
      have hlt : j < add_insert_index l p + k := by omega
      exact (List.pairwise_iff_get.mp hs) ⟨j, hjlen⟩
        ⟨add_insert_index l p + k, hklen⟩ hlt

/-- C3: the sortedness invariant holds at every operation boundary —
after `get_tasklist` (which re-sorts defensively with the stable sort),
after every `Add` insertion on a sorted store, and after every priority
modification (which fully re-sorts with the stable sort), the task
sequence is non-decreasing by priority from first to last element. -/
theorem sort_invariant_at_boundaries :
    (∀ contents l, get_tasklist contents = .ok l →
      sortedByPriority ParsedTask.priority l) ∧
    (∀ l p message now, sortedByPriority Ryattl.Task.priority l →
      sortedByPriority Ryattl.Task.priority (add_task l p message now)) ∧
    (∀ l p task_id l', modify_task l (some p) task_id = .ok l' →
      sortedByPriority Ryattl.Task.priority l') := by
  refine ⟨?_, add_task_sorted, ?_⟩
  · intro contents l h
    unfold get_tasklist at h
    cases hd : decode_records contents with
    | error e => rw [hd] at h; exact absurd h (by simp)
    | ok tl =>
      rw [hd] at h
      have hl : tl.mergeSort
          (fun a b => Priority.le a.priority b.priority) = l := by
        injection h
      rw [← hl]
      exact mergeSort_sortedByPriority ParsedTask.priority tl
  · intro l p task_id l' h
    unfold modify_task at h
    by_cases hg : task_id > l.length
    · rw [if_pos hg] at h
      exact absurd h (by simp)
    · rw [if_neg hg] at h
      cases hidx : l[l.length - task_id]? with
      | none => rw [hidx] at h; exact absurd h (by simp)
      | some task =>
        rw [hidx] at h
        simp only [Option.isNone_some, Bool.false_eq_true, if_false,
          reduceIte] at h
        have hl : sort_tasklist
            (l.set (l.length - task_id) { task with priority := p }) =
            l' := by
          injection h
        rw [← hl]
        exact mergeSort_sortedByPriority Ryattl.Task.priority _

/-- witness for `sort_invariant_at_boundaries`: its three components
applied at concrete stores — a two-record file whose load is sorted, an
insertion into a sorted two-task store, and a modification that drops a
priority and re-sorts. -/
theorem sort_invariant_at_boundaries_witness :
    sortedByPriority ParsedTask.priority
      [⟨.Value 0, "b".toList⟩, ⟨.Value 1, "a".toList⟩] ∧
    sortedByPriority Ryattl.Task.priority
      (add_task [⟨.Value 1, "a".toList, "t".toList⟩,
        ⟨.Value 3, "b".toList, "u".toList⟩] (.Value 2) "c".toList
        "v".toList) ∧
    sortedByPriority Ryattl.Task.priority
      [⟨.Value 0, "a".toList, "t".toList⟩,
       ⟨.Value 3, "b".toList, "u".toList⟩] :=
  ⟨sort_invariant_at_boundaries.1
      ("0".toList ++ [UNIT_SEPERATOR] ++ "b".toList ++ [RECORD_SEPERATOR]
        ++ "1".toList ++ [UNIT_SEPERATOR] ++ "a".toList
        ++ [RECORD_SEPERATOR])
      [⟨.Value 0, "b".toList⟩, ⟨.Value 1, "a".toList⟩]
      (by
        have h1 : get_tasklist
            ("0".toList ++ [UNIT_SEPERATOR] ++ "b".toList
              ++ [RECORD_SEPERATOR] ++ "1".toList ++ [UNIT_SEPERATOR]
              ++ "a".toList ++ [RECORD_SEPERATOR]) =
            .ok (List.mergeSort
              [⟨.Value 0, "b".toList⟩, ⟨.Value 1, "a".toList⟩]
              (fun a b => Priority.le a.priority b.priority)) := rfl
        rw [h1, List.mergeSort_of_sorted (by decide)]),
   sort_invariant_at_boundaries.2.1
      [⟨.Value 1, "a".toList, "t".toList⟩,
       ⟨.Value 3, "b".toList, "u".toList⟩] (.Value 2) "c".toList
      "v".toList (by simp only [sortedByPriority]; decide),
   sort_invariant_at_boundaries.2.2
      [⟨.Value 1, "a".toList, "t".toList⟩,
       ⟨.Value 3, "b".toList, "u".toList⟩] (.Value 0) 2
      [⟨.Value 0, "a".toList, "t".toList⟩,
       ⟨.Value 3, "b".toList, "u".toList⟩]
      (by
        have h1 : modify_task
            [⟨.Value 1, "a".toList, "t".toList⟩,
             ⟨.Value 3, "b".toList, "u".toList⟩] (some (.Value 0)) 2 =
            .ok (sort_tasklist [⟨.Value 0, "a".toList, "t".toList⟩,
              ⟨.Value 3, "b".toList, "u".toList⟩]) := rfl
        rw [h1, sort_tasklist, List.mergeSort_of_sorted (by decide)])⟩

/-- `parse_task_id` can only succeed with a non-zero value: the `Zero`
rejection sits inside `NonZeroUsize::from_str`. -/
theorem parseNonZeroUsize_pos {s : List Char} {n : Nat}
    (h : parseNonZeroUsize s = .ok n) : 1 ≤ n := by
  unfold parseNonZeroUsize at h
  cases hp : parseUsize s with
  | error e => rw [hp] at h; exact absurd h (by simp)
  | ok m =>
    rw [hp] at h
    cases m with
    | zero => exact absurd h (by simp)
    | succ m =>
      have hn : m + 1 = n := by injection h
      omega

theorem parse_task_id_pos {s : List Char} {n : Nat}
    (h : parse_task_id s = .ok n) : 1 ≤ n := by
  unfold parse_task_id at h
  cases hp : parseNonZeroUsize (trim s) with
  | error e =>
    rw [hp] at h
    cases e <;> exact absurd h (by simp)
  | ok m =>
    rw [hp] at h
    have hn : m = n := by injection h
    exact hn ▸ parseNonZeroUsize_pos hp

/-- C4: ordinal addressing — for a store of length `N`, looking up
ordinal `k` with `1 <= k <= N` selects the element at zero-based index
`N - k`; `k = 0` can never be produced by `parse_task_id` (it accepts
only non-zero whole numbers); and `k > N` is rejected by the `Info`,
`Modify` and `Remove` commands with the invalid-value error that carries
the valid upper bound `N`. -/
theorem ordinal_addressing :
    (∀ (l : List Ryattl.Task) (k : Nat), 1 ≤ k → k ≤ l.length →
      lookup_task l k = .ok (l.getD (l.length - k) default)) ∧
    (∀ (s : List Char) (n : Nat), parse_task_id s = .ok n → 1 ≤ n) ∧
    (∀ (l : List Ryattl.Task) (k : Nat), k > l.length →
      lookup_task l k = .error (build_invalid_task_id_error k l.length)) ∧
    (∀ (l : List Ryattl.Task) (p : Option Priority) (k : Nat),
      k > l.length →
      modify_task l p k = .error (build_invalid_task_id_error k l.length)) ∧
    (∀ (l : List Ryattl.Task) (k : Nat), k > l.length →
      remove_task l k = .error (build_invalid_task_id_error k l.length)) := by
  refine ⟨?_, fun s n h => parse_task_id_pos h, ?_, ?_, ?_⟩
  · intro l k h1 h2
    have hlt : l.length - k < l.length := by omega
    simp only [lookup_task]
    rw [if_neg (by omega), List.getElem?_eq_getElem hlt,
      getD_eq_getElem_of_lt hlt]
  · intro l k hk
    simp only [lookup_task]
    rw [if_pos hk]
  · intro l p k hk
    simp only [modify_task]
    rw [if_pos hk]
  · intro l k hk
    simp only [remove_task]
    rw [if_pos hk]

/-- witness for `ordinal_addressing`: on a two-task store, ordinal 1
selects index 1, `parse_task_id "2"` yields a positive ID, and ordinal 3
is rejected by all three commands with the bound-carrying error. -/
theorem ordinal_addressing_witness :
    lookup_task [⟨.Value 1, "a".toList, "t".toList⟩,
        ⟨.Value 2, "b".toList, "u".toList⟩] 1 =
      .ok ([⟨.Value 1, "a".toList, "t".toList⟩,
        (⟨.Value 2, "b".toList, "u".toList⟩ : Ryattl.Task)].getD 1
        default) ∧
    1 ≤ 2 ∧
    lookup_task [⟨.Value 1, "a".toList, "t".toList⟩,
        ⟨.Value 2, "b".toList, "u".toList⟩] 3 =
      .error (build_invalid_task_id_error 3 2) ∧
    modify_task [⟨.Value 1, "a".toList, "t".toList⟩,
        ⟨.Value 2, "b".toList, "u".toList⟩] none 3 =
      .error (build_invalid_task_id_error 3 2) ∧
    remove_task [⟨.Value 1, "a".toList, "t".toList⟩,
        ⟨.Value 2, "b".toList, "u".toList⟩] 3 =
      .error (build_invalid_task_id_error 3 2) :=
  ⟨ordinal_addressing.1 [⟨.Value 1, "a".toList, "t".toList⟩,
      ⟨.Value 2, "b".toList, "u".toList⟩] 1 (by decide) (by decide),
   ordinal_addressing.2.1 "2".toList 2 (by decide),
   ordinal_addressing.2.2.1 [⟨.Value 1, "a".toList, "t".toList⟩,
      ⟨.Value 2, "b".toList, "u".toList⟩] 3 (by decide),
   ordinal_addressing.2.2.2.1 [⟨.Value 1, "a".toList, "t".toList⟩,
      ⟨.Value 2, "b".toList, "u".toList⟩] none 3 (by decide),
   ordinal_addressing.2.2.2.2 [⟨.Value 1, "a".toList, "t".toList⟩,
      ⟨.Value 2, "b".toList, "u".toList⟩] 3 (by decide)⟩

/-- C7: the unchecked indexed accesses of `Info` and `Modify` are safe
under the validated precondition — for every `task_id` produced by
`parse_task_id` (hence at least 1) that passes the guard
`task_id <= tasklist_len`, the index `tasklist_len - task_id` is
strictly below `tasklist_len`, so the total-indexing embedding never
reaches the out-of-bounds branch. -/
theorem validated_index_safe (s : List Char) (n : Nat)
    (l : List Ryattl.Task) (hp : parse_task_id s = .ok n)
    (hle : n ≤ l.length) :
    l.length - n < l.length ∧
    ∃ task, l[l.length - n]? = some task ∧ lookup_task l n = .ok task := by
  have h1 : 1 ≤ n := parse_task_id_pos hp
  have hlt : l.length - n < l.length := by omega
  refine ⟨hlt, l[l.length - n], List.getElem?_eq_getElem hlt, ?_⟩
  simp only [lookup_task]
  rw [if_neg (by omega), List.getElem?_eq_getElem hlt]

/-- witness for `validated_index_safe`: `parse_task_id " 1 "` on a
one-task store reaches the element at index 0. -/
theorem validated_index_safe_witness :
    ([(⟨.Min, "a".toList, "t".toList⟩ : Ryattl.Task)] : List Ryattl.Task).length - 1 <
      ([(⟨.Min, "a".toList, "t".toList⟩ : Ryattl.Task)] : List Ryattl.Task).length ∧
    ∃ task,
      ([(⟨.Min, "a".toList, "t".toList⟩ : Ryattl.Task)] : List Ryattl.Task)[
        ([(⟨.Min, "a".toList, "t".toList⟩ : Ryattl.Task)] : List Ryattl.Task).length - 1]? =
        some task ∧
      lookup_task [⟨.Min, "a".toList, "t".toList⟩] 1 = .ok task :=
  validated_index_safe " 1 ".toList 1 [⟨.Min, "a".toList, "t".toList⟩]
    (by decide) (by decide)

/-- C8: for a store of length `N >= 1` and a valid ordinal
`1 <= k <= N`, `Remove` deletes exactly the task at zero-based index
`N - k`: the result is the prefix before that index followed by the
suffix after it (so every other task is unchanged and keeps its
relative order), the length drops by one, no re-sort is performed, and
sortedness is preserved. -/
theorem remove_task_spec (l : List Ryattl.Task) (k : Nat) (h1 : 1 ≤ k)
    (h2 : k ≤ l.length) :
    remove_task l k =
      .ok (l.take (l.length - k) ++ l.drop (l.length - k + 1)) ∧
    (l.take (l.length - k) ++ l.drop (l.length - k + 1)).length =
      l.length - 1 ∧
    (sortedByPriority Ryattl.Task.priority l →
      sortedByPriority Ryattl.Task.priority
        (l.take (l.length - k) ++ l.drop (l.length - k + 1))) := by
  have herase : l.eraseIdx (l.length - k) =
      l.take (l.length - k) ++ l.drop (l.length - k + 1) :=
    List.eraseIdx_eq_take_drop_succ l (l.length - k)
  refine ⟨?_, ?_, ?_⟩
  · simp only [remove_task]
    rw [if_neg (by omega), herase]
  · rw [← herase, List.length_eraseIdx]
    rw [if_pos (by omega)]
  · intro hs
    rw [← herase]
    exact List.Pairwise.sublist (List.eraseIdx_sublist l (l.length - k)) hs

/-- witness for `remove_task_spec`: removing ordinal 1 from a sorted
two-task store drops the last element and keeps the store sorted. -/
theorem remove_task_spec_witness :
    remove_task [⟨.Value 1, "a".toList, "t".toList⟩,
        ⟨.Value 2, "b".toList, "u".toList⟩] 1 =
      .ok ([⟨.Value 1, "a".toList, "t".toList⟩,
        (⟨.Value 2, "b".toList, "u".toList⟩ : Ryattl.Task)].take 1 ++
        [⟨.Value 1, "a".toList, "t".toList⟩,
        (⟨.Value 2, "b".toList, "u".toList⟩ : Ryattl.Task)].drop 2) ∧
    ([⟨.Value 1, "a".toList, "t".toList⟩,
        (⟨.Value 2, "b".toList, "u".toList⟩ : Ryattl.Task)].take 1 ++
      [⟨.Value 1, "a".toList, "t".toList⟩,
        (⟨.Value 2, "b".toList, "u".toList⟩ : Ryattl.Task)].drop 2).length = 1 ∧
    (sortedByPriority Ryattl.Task.priority
        [⟨.Value 1, "a".toList, "t".toList⟩,
         ⟨.Value 2, "b".toList, "u".toList⟩] →
      sortedByPriority Ryattl.Task.priority
        ([⟨.Value 1, "a".toList, "t".toList⟩,
          (⟨.Value 2, "b".toList, "u".toList⟩ : Ryattl.Task)].take 1 ++
          [⟨.Value 1, "a".toList, "t".toList⟩,
          (⟨.Value 2, "b".toList, "u".toList⟩ : Ryattl.Task)].drop 2)) :=
  remove_task_spec
    [⟨.Value 1, "a".toList, "t".toList⟩,
     ⟨.Value 2, "b".toList, "u".toList⟩] 1 (by decide) (by decide)

/-- index-wise description of the `List` command's enumeration: entry
`k` pairs ordinal `k + 1` with the element at zero-based index
`N - 1 - k` — ordinal 1 is the last element, ordinal `N` the first. -/
theorem list_entries_getElem (l : List Ryattl.Task) (k : Nat)
    (hk : k < l.length) :
    (list_entries l)[k]? = some (k + 1, l.getD (l.length - 1 - k) default) := by
  have hsub : l.length - 1 - k < l.length := by omega
  rw [list_entries, List.getElem?_map, List.getElem?_enum,
    List.getElem?_reverse hk, List.getElem?_eq_getElem hsub,
    getD_eq_getElem_of_lt hsub]
  rfl

/-- C9: the `List` command never mutates the store and never reaches
`save_tasklist`: it enumerates the tasks from the end of the sequence
(ordinal 1 for the last element up to ordinal `N` for the first) and
leaves the sequence unchanged; an empty store produces the distinct
empty-list message, no entries, no mutation and no file rewrite. -/
theorem run_list_spec (l : List Ryattl.Task) :
    (run_list l).tasklist = l ∧
    (run_list l).saved = false ∧
    (l = [] → (run_list l).empty_message = some "The task list is empty" ∧
      (run_list l).entries = []) ∧
    (l ≠ [] → (run_list l).empty_message = none ∧
      (run_list l).entries = list_entries l) ∧
    (∀ k, k < l.length →
      (list_entries l)[k]? =
        some (k + 1, l.getD (l.length - 1 - k) default)) := by
  by_cases h : l = []
  · subst h
    exact ⟨rfl, rfl, fun _ => ⟨rfl, rfl⟩, fun hne => absurd rfl hne,
      fun k hk => absurd hk (by simp)⟩
  · refine ⟨?_, ?_, fun he => absurd he h, fun _ => ⟨?_, ?_⟩,
      list_entries_getElem l⟩ <;>
      simp [run_list, List.isEmpty_iff, h]

/-- witness for `run_list_spec`: a two-task store pairs ordinal 1 with
the last task, and the empty store produces the empty-list message. -/
theorem run_list_spec_witness :
    (run_list [⟨.Value 1, "a".toList, "t".toList⟩,
        ⟨.Value 2, "b".toList, "u".toList⟩]).empty_message = none ∧
    (run_list [⟨.Value 1, "a".toList, "t".toList⟩,
        ⟨.Value 2, "b".toList, "u".toList⟩]).entries =
      list_entries [⟨.Value 1, "a".toList, "t".toList⟩,
        ⟨.Value 2, "b".toList, "u".toList⟩] ∧
    (list_entries [⟨.Value 1, "a".toList, "t".toList⟩,
        ⟨.Value 2, "b".toList, "u".toList⟩])[0]? =
      some (1, ([⟨.Value 1, "a".toList, "t".toList⟩,
        (⟨.Value 2, "b".toList, "u".toList⟩ : Ryattl.Task)] :
          List Ryattl.Task).getD 1 default) ∧
    (run_list ([] : List Ryattl.Task)).empty_message =
      some "The task list is empty" :=
  ⟨((run_list_spec _).2.2.2.1 (by simp)).1,
   ((run_list_spec _).2.2.2.1 (by simp)).2,
   (run_list_spec [⟨.Value 1, "a".toList, "t".toList⟩,
      ⟨.Value 2, "b".toList, "u".toList⟩]).2.2.2.2 0 (by decide),
   ((run_list_spec ([] : List Ryattl.Task)).2.2.1 rfl).1⟩

theorem digitVal_digitChar {d : Nat} (h : d < 10) :
    digitVal (Char.ofNat (48 + d)) = some d := by
  interval_cases d <;> decide

theorem toNat_digitChar {d : Nat} (h : d < 10) :
    (Char.ofNat (48 + d)).toNat = 48 + d := by
  interval_cases d <;> decide

/-- every character of a decimal numeral is an ASCII digit. -/
theorem natDecimal_digits (n : Nat) :
    ∀ c ∈ natDecimal n, 48 ≤ c.toNat ∧ c.toNat ≤ 57 := by
  induction n using Nat.strong_induction_on with
  | _ n ih =>
    by_cases h : n < 10
    · rw [natDecimal, if_pos h]
      intro c hc
      have hc' : c = Char.ofNat (48 + n) := by simpa using hc
      subst hc'
      rw [toNat_digitChar h]
      omega
    · rw [natDecimal, if_neg h]
      intro c hc
      rcases List.mem_append.mp hc with hc | hc
      · exact ih (n / 10) (by omega) c hc
      · have hc' : c = Char.ofNat (48 + n % 10) := by simpa using hc
        subst hc'
        rw [toNat_digitChar (Nat.mod_lt n (by omega))]
        have := Nat.mod_lt n (show 0 < 10 by omega)
        omega

theorem natDecimal_ne_nil (n : Nat) : natDecimal n ≠ [] := by
  by_cases h : n < 10 <;> rw [natDecimal] <;> simp [h]

/-- the digit loop distributes over list concatenation. -/
theorem parseDigits_append (acc : Nat) (xs ys : List Char) :
    parseDigits acc (xs ++ ys) =
      match parseDigits acc xs with
      | .ok a => parseDigits a ys
      | .error e => .error e := by
  induction xs generalizing acc with
  | nil => rfl
  | cons c rest ih =>
    rw [List.cons_append]
    cases hd : digitVal c with
    | none => simp [parseDigits, hd]
    | some d =>
      by_cases ho : USIZE_MAX < acc * 10 + d
      · simp [parseDigits, hd, ho]
      · simp [parseDigits, hd, ho, ih]

/-- running the digit loop over the numeral of `n` accumulates exactly
`acc * 10 ^ digits + n` when that value fits in a `usize`. -/
theorem parseDigits_natDecimal (n : Nat) :
    ∀ acc, acc * 10 ^ (natDecimal n).length + n ≤ USIZE_MAX →
      parseDigits acc (natDecimal n) =
        .ok (acc * 10 ^ (natDecimal n).length + n) := by
  induction n using Nat.strong_induction_on with
  | _ n ih =>
    intro acc hfit
    by_cases h : n < 10
    · rw [natDecimal, if_pos h] at hfit ⊢
      simp only [List.length_cons, List.length_nil, pow_one] at hfit ⊢
      simp only [parseDigits, digitVal_digitChar h]
      rw [if_neg (by omega)]
      rfl
    · rw [natDecimal, if_neg h] at hfit ⊢
      rw [List.length_append, List.length_cons, List.length_nil] at hfit ⊢
      have hdm : n / 10 * 10 + n % 10 = n := by omega
      have hstep : (acc * 10 ^ (natDecimal (n / 10)).length + n / 10) * 10
          + n % 10 =
          acc * 10 ^ ((natDecimal (n / 10)).length + (0 + 1)) + n := by
        calc (acc * 10 ^ (natDecimal (n / 10)).length + n / 10) * 10
            + n % 10
            = acc * (10 ^ (natDecimal (n / 10)).length * 10) +
              (n / 10 * 10 + n % 10) := by ring
          _ = acc * 10 ^ ((natDecimal (n / 10)).length + (0 + 1)) + n := by
              rw [hdm, pow_succ]
      have hfit2 : acc * 10 ^ (natDecimal (n / 10)).length + n / 10 ≤
          USIZE_MAX := by omega
      rw [parseDigits_append, ih (n / 10) (by omega) acc hfit2]
      simp only [parseDigits,
        digitVal_digitChar (Nat.mod_lt n (show 0 < 10 by omega))]
      rw [if_neg (by omega)]
      rw [hstep]

/-- running the digit loop over the numeral of `n` overflows as soon as
the accumulated value would exceed `USIZE_MAX`. -/
theorem parseDigits_natDecimal_overflow (n : Nat) :
    ∀ acc, USIZE_MAX < acc * 10 ^ (natDecimal n).length + n →
      parseDigits acc (natDecimal n) = .error .PosOverflow := by
  induction n using Nat.strong_induction_on with
  | _ n ih =>
    intro acc hover
    by_cases h : n < 10
    · rw [natDecimal, if_pos h] at hover ⊢
      simp only [List.length_cons, List.length_nil, pow_one] at hover
      simp only [parseDigits, digitVal_digitChar h]
      rw [if_pos (by omega)]
    · rw [natDecimal, if_neg h] at hover ⊢
      rw [List.length_append, List.length_cons, List.length_nil] at hover
      have hdm : n / 10 * 10 + n % 10 = n := by omega
      have hstep : (acc * 10 ^ (natDecimal (n / 10)).length + n / 10) * 10
          + n % 10 =
          acc * 10 ^ ((natDecimal (n / 10)).length + (0 + 1)) + n := by
        calc (acc * 10 ^ (natDecimal (n / 10)).length + n / 10) * 10
            + n % 10
            = acc * (10 ^ (natDecimal (n / 10)).length * 10) +
              (n / 10 * 10 + n % 10) := by ring
          _ = acc * 10 ^ ((natDecimal (n / 10)).length + (0 + 1)) + n := by
              rw [hdm, pow_succ]
      rw [parseDigits_append]
      by_cases hpre : acc * 10 ^ (natDecimal (n / 10)).length + n / 10 ≤
          USIZE_MAX
      · rw [parseDigits_natDecimal (n / 10) acc hpre]
        simp only [parseDigits,
          digitVal_digitChar (Nat.mod_lt n (show 0 < 10 by omega))]
        rw [if_pos (by omega)]
      · rw [ih (n / 10) (by omega) acc (by omega)]

theorem dropWhile_eq_self_of_all {p : Char → Bool} {s : List Char}
    (h : ∀ c ∈ s, p c = false) : s.dropWhile p = s := by
  cases s with
  | nil => rfl
  | cons c rest =>
    rw [List.dropWhile_cons, h c (by simp)]
    simp

theorem trim_eq_self_of_all {s : List Char}
    (h : ∀ c ∈ s, c.isWhitespace = false) : trim s = s := by
  unfold trim
  rw [dropWhile_eq_self_of_all h,
    dropWhile_eq_self_of_all (fun c hc => h c (List.mem_reverse.mp hc)),
    List.reverse_reverse]

theorem digit_not_whitespace {c : Char} (h48 : 48 ≤ c.toNat)
    (h57 : c.toNat ≤ 57) : c.isWhitespace = false := by
  cases hw : c.isWhitespace
  · rfl
  · simp only [Char.isWhitespace, Bool.or_eq_true, decide_eq_true_eq]
      at hw
    rcases hw with ((rfl | rfl) | rfl) | rfl <;>
      exact absurd h48 (by decide)

theorem parseUsize_natDecimal (n : Nat) :
    parseUsize (natDecimal n) = parseDigits 0 (natDecimal n) := by
  cases hn : natDecimal n with
  | nil => exact absurd hn (natDecimal_ne_nil n)
  | cons c rest =>
    have hc : 48 ≤ c.toNat ∧ c.toNat ≤ 57 :=
      natDecimal_digits n c (by rw [hn]; simp)
    have hne : c ≠ '+' := by
      intro h
      subst h
      exact absurd hc (by decide)
    simp [parseUsize, hne]

theorem natDecimal_ne_max (n : Nat) : natDecimal n ≠ "max".toList := by
  intro h
  have hm : 'm' ∈ natDecimal n := by rw [h]; decide
  exact absurd (natDecimal_digits n 'm' hm) (by decide)

theorem natDecimal_ne_min (n : Nat) : natDecimal n ≠ "min".toList := by
  intro h
  have hm : 'm' ∈ natDecimal n := by rw [h]; decide
  exact absurd (natDecimal_digits n 'm' hm) (by decide)

theorem trim_natDecimal (n : Nat) : trim (natDecimal n) = natDecimal n :=
  trim_eq_self_of_all (fun c hc =>
    digit_not_whitespace (natDecimal_digits n c hc).1
      (natDecimal_digits n c hc).2)

/-- a decimal numeral whose value fits in a `usize` parses back to that
value. -/
theorem parse_priority_natDecimal {n : Nat} (h : n ≤ USIZE_MAX) :
    parse_priority (natDecimal n) = .ok (.Value n) := by
  unfold parse_priority
  rw [trim_natDecimal, if_neg (natDecimal_ne_max n),
    if_neg (natDecimal_ne_min n), parseUsize_natDecimal,
    parseDigits_natDecimal n 0 (by simpa using h)]
  simp

/-- a decimal numeral whose value exceeds `usize::MAX` produces the
distinct too-big error. -/
theorem parse_priority_natDecimal_overflow {n : Nat}
    (h : USIZE_MAX < n) :
    parse_priority (natDecimal n) =
      .error "the number is too big, you might want to use 'max' instead" := by
  unfold parse_priority
  rw [trim_natDecimal, if_neg (natDecimal_ne_max n),
    if_neg (natDecimal_ne_min n), parseUsize_natDecimal,
    parseDigits_natDecimal_overflow n 0 (by simpa using h)]

/-- C6 counterexample: the numeric branch of `parse_priority` parses the
ORIGINAL string, not the trimmed one, so a numeral with surrounding
whitespace is rejected with the generic error even though its trimmed
form is a plain numeral that parses fine. -/
theorem parse_priority_numeral_not_trimmed :
    parse_priority " 0".toList =
      .error "expected 'min', 'max' or a whole number" ∧
    trim " 0".toList = "0".toList ∧
    parse_priority "0".toList = .ok (.Value 0) := by
  refine ⟨by decide, by decide, by decide⟩

/-- C6 (amended): `parse_priority` accepts the two sentinel tokens
case-sensitively with surrounding whitespace trimmed; numeric literals
in `[0, usize::MAX]` are accepted when written without surrounding
whitespace (the numeral is parsed from the untrimmed input); a numeral
that overflows yields the distinct too-big error suggesting the max
sentinel; any other malformed input yields the generic
expected-min-max-or-number error. -/
theorem parse_priority_spec :
    (∀ s, trim s = "max".toList → parse_priority s = .ok .Max) ∧
    (∀ s, trim s = "min".toList → parse_priority s = .ok .Min) ∧
    (∀ n, n ≤ USIZE_MAX →
      parse_priority (natDecimal n) = .ok (.Value n)) ∧
    (∀ n, USIZE_MAX < n → parse_priority (natDecimal n) =
      .error "the number is too big, you might want to use 'max' instead") ∧
    (∀ s, trim s ≠ "max".toList → trim s ≠ "min".toList →
      parseUsize s = .error .PosOverflow →
      parse_priority s =
        .error "the number is too big, you might want to use 'max' instead") ∧
    (∀ s e, trim s ≠ "max".toList → trim s ≠ "min".toList →
      parseUsize s = .error e → e ≠ .PosOverflow →
      parse_priority s =
        .error "expected 'min', 'max' or a whole number") := by
  refine ⟨?_, ?_, fun n h => parse_priority_natDecimal h,
    fun n h => parse_priority_natDecimal_overflow h, ?_, ?_⟩
  · intro s h
    unfold parse_priority
    rw [if_pos h]
  · intro s h
    unfold parse_priority
    rw [if_neg (by rw [h]; decide), if_pos h]
  · intro s h1 h2 he
    unfold parse_priority
    rw [if_neg h1, if_neg h2, he]
  · intro s e h1 h2 he hne
    unfold parse_priority
    rw [if_neg h1, if_neg h2, he]
    cases e with
    | PosOverflow => exact absurd rfl hne
    | Empty => rfl
    | InvalidDigit => rfl
    | Zero => rfl

/-- witness for `parse_priority_spec`: each accepting and rejecting
branch exercised on a concrete input. -/
theorem parse_priority_spec_witness :
    parse_priority " max ".toList = .ok .Max ∧
    parse_priority "min".toList = .ok .Min ∧
    parse_priority (natDecimal 5) = .ok (.Value 5) ∧
    parse_priority (natDecimal (2 ^ 64)) =
      .error "the number is too big, you might want to use 'max' instead" ∧
    parse_priority "99999999999999999999".toList =
      .error "the number is too big, you might want to use 'max' instead" ∧
    parse_priority "Max".toList =
      .error "expected 'min', 'max' or a whole number" :=
  ⟨parse_priority_spec.1 " max ".toList (by decide),
   parse_priority_spec.2.1 "min".toList (by decide),
   parse_priority_spec.2.2.1 5 (by decide),
   parse_priority_spec.2.2.2.1 (2 ^ 64) (by decide),
   parse_priority_spec.2.2.2.2.1 "99999999999999999999".toList
     (by decide) (by decide) (by decide),
   parse_priority_spec.2.2.2.2.2 "Max".toList .InvalidDigit (by decide)
     (by decide) (by decide) (by decide)⟩

/-- values a `Priority` can hold in the Rust program: a `Value` carries
a `usize`, so its number is at most `usize::MAX`. -/
def validPriority : Priority → Prop
  | .Value n => n ≤ USIZE_MAX
  | _ => True

/-- C10: formatting any representable `Priority` with its `Display`
implementation (`"max"`, `"min"`, or the decimal numeral) and feeding
the text back to `parse_priority` returns exactly the same priority. -/
theorem priority_format_parse_roundtrip (p : Priority)
    (h : validPriority p) : parse_priority p.format = .ok p := by
  cases p with
  | Max => rfl
  | Min => rfl
  | Value n => exact parse_priority_natDecimal h

/-- witness for `priority_format_parse_roundtrip` at `Value 7`. -/
theorem priority_format_parse_roundtrip_witness :
    parse_priority (Priority.format (.Value 7)) = .ok (.Value 7) :=
  priority_format_parse_roundtrip (.Value 7)
    (show (7 : Nat) ≤ USIZE_MAX by decide)

/-- C1 (code bug at the failing input): `save_tasklist` serializes three
fields per record (priority, message, timestamp joined by the unit
separator), but `parse_task` splits each record into at most TWO items
(`splitn(2, UNIT_SEPERATOR)`) and has no timestamp field at all, so
decoding an encoded singleton store yields the original priority but a
message equal to the original message with the unit separator and the
timestamp text appended — the round trip does not reproduce the
sequence. -/
theorem save_parse_roundtrip_fails :
    decode_records (save_tasklist [⟨.Min, "a".toList, "t".toList⟩]) =
      .ok [⟨.Min, "a".toList ++ [UNIT_SEPERATOR] ++ "t".toList⟩] ∧
    "a".toList ++ [UNIT_SEPERATOR] ++ "t".toList ≠ "a".toList :=
  ⟨by decide, by decide⟩
